import Mathlib

/-!
Verification of the area-weighted global averaging logic of
`Assignments/Assignment02 -- Introducing CESM.ipynb`.

The quantitative content of the notebook is:

* `coslat = cos(deg2rad(atm_control.lat))`
* `weight_factor = coslat / coslat.mean(dim='lat')`
* `weight_factor2 = atm_control.gw / atm_control.gw.mean(dim='lat')`
* `(atm_control.FLNT * weight_factor).mean(dim=('time', 'lon', 'lat'))`

We embed this shallowly over the reals: a grid with `n` latitude rows and
`m` longitude columns carries a field `F : Fin n → Fin m → ℝ`; `.mean`
over an axis is the arithmetic mean; degree-to-radian conversion and the
cosine are the exact real functions (the idealisation of the floating
point arithmetic the notebook delegates to numpy/xarray).
-/

noncomputable section

namespace CESM

/-- `np.deg2rad`: convert degrees to radians, `x * (π / 180)`. -/
def deg2rad (x : ℝ) : ℝ := x * (Real.pi / 180)

/-- xarray `.mean` over one axis: the arithmetic mean of a vector
(division by zero, i.e. an empty axis, yields `0` in this model). -/
def fmean {n : ℕ} (v : Fin n → ℝ) : ℝ := (∑ i, v i) / n

/-- Notebook cell: `coslat = cos(deg2rad(atm_control.lat))`. -/
def coslat {n : ℕ} (lat : Fin n → ℝ) : Fin n → ℝ := fun i =>
  Real.cos (deg2rad (lat i))

/-- The normalisation pattern `w / w.mean(dim='lat')` shared by
`weight_factor` (cosine weights) and `weight_factor2` (supplied `gw`
weights). -/
def normweight {n : ℕ} (w : Fin n → ℝ) : Fin n → ℝ := fun i => w i / fmean w

/-- Notebook cell: `weight_factor = coslat / coslat.mean(dim='lat')`. -/
def weight_factor {n : ℕ} (lat : Fin n → ℝ) : Fin n → ℝ :=
  normweight (coslat lat)

/-- Joint arithmetic mean over the latitude and longitude axes of a
2-D field, `.mean(dim=('lat', 'lon'))`. -/
def mean2 {n m : ℕ} (F : Fin n → Fin m → ℝ) : ℝ :=
  (∑ i, ∑ j, F i j) / (n * m)

/-- The averager on a 2-D (lat, lon) field:
`(F * weight_factor).mean(dim=('lat', 'lon'))`, the per-latitude weight
broadcast across longitude. -/
def weightedMean {n m : ℕ} (lat : Fin n → ℝ) (F : Fin n → Fin m → ℝ) : ℝ :=
  mean2 fun i j => F i j * weight_factor lat i

/-- Joint arithmetic mean over all three axes of a (time, lat, lon)
field, `.mean(dim=('time', 'lat', 'lon'))`. -/
def mean3 {t n m : ℕ} (F : Fin t → Fin n → Fin m → ℝ) : ℝ :=
  (∑ τ, ∑ i, ∑ j, F τ i j) / (t * n * m)

/-- The notebook's call site on the 3-D `FLNT` field:
`(atm_control.FLNT * weight_factor).mean(dim=('time', 'lon', 'lat'))`. -/
def weightedMeanTime {t n m : ℕ} (lat : Fin n → ℝ)
    (F : Fin t → Fin n → Fin m → ℝ) : ℝ :=
  mean3 fun τ i j => F τ i j * weight_factor lat i

/-- Re-applying the averaging operation to an already spatially reduced
scalar `c`: broadcasting `c` against `weight_factor` recreates the
latitude axis, which is then reduced again by the mean. -/
def averageScalar {n : ℕ} (lat : Fin n → ℝ) (c : ℝ) : ℝ :=
  fmean fun i => c * weight_factor lat i

/-! ### Basic facts about the normalised weights -/

lemma fmean_ne_zero_imp_dim_ne_zero {n : ℕ} {w : Fin n → ℝ}
    (h : fmean w ≠ 0) : (n : ℝ) ≠ 0 := by
  intro h0
  apply h
  unfold fmean
  rw [h0, div_zero]

lemma fmean_ne_zero_imp_sum_ne_zero {n : ℕ} {w : Fin n → ℝ}
    (h : fmean w ≠ 0) : (∑ i, w i) ≠ 0 := by
  intro h0
  apply h
  unfold fmean
  rw [h0, zero_div]

/-- The normalised weights sum to `n`. -/
lemma sum_normweight {n : ℕ} (w : Fin n → ℝ) (h : fmean w ≠ 0) :
    (∑ i, normweight w i) = n := by
  have hn : (n : ℝ) ≠ 0 := fmean_ne_zero_imp_dim_ne_zero h
  have hS : (∑ i, w i) ≠ 0 := fmean_ne_zero_imp_sum_ne_zero h
  unfold normweight fmean
  rw [← Finset.sum_div]
  field_simp

/-- The normalised weights average to `1`. -/
lemma fmean_normweight {n : ℕ} (w : Fin n → ℝ) (h : fmean w ≠ 0) :
    fmean (normweight w) = 1 := by
  have hn : (n : ℝ) ≠ 0 := fmean_ne_zero_imp_dim_ne_zero h
  unfold fmean
  rw [sum_normweight w h, div_self hn]

/-! ### Cosine weights on physical latitude ranges -/

lemma cos_deg2rad_nonneg {l : ℝ} (h1 : -90 ≤ l) (h2 : l ≤ 90) :
    0 ≤ Real.cos (deg2rad l) := by
  apply Real.cos_nonneg_of_mem_Icc
  unfold deg2rad
  constructor
  · nlinarith [mul_nonneg (by linarith : (0:ℝ) ≤ l + 90) Real.pi_pos.le]
  · nlinarith [mul_nonneg (by linarith : (0:ℝ) ≤ 90 - l) Real.pi_pos.le]

lemma cos_deg2rad_pos {l : ℝ} (h1 : -90 < l) (h2 : l < 90) :
    0 < Real.cos (deg2rad l) := by
  apply Real.cos_pos_of_mem_Ioo
  unfold deg2rad
  constructor
  · nlinarith [mul_pos (by linarith : (0:ℝ) < l + 90) Real.pi_pos]
  · nlinarith [mul_pos (by linarith : (0:ℝ) < 90 - l) Real.pi_pos]

lemma sum_coslat_pos {n : ℕ} (lat : Fin n → ℝ)
    (hrange : ∀ i, -90 ≤ lat i ∧ lat i ≤ 90)
    (hint : ∃ i, -90 < lat i ∧ lat i < 90) :
    0 < ∑ i, coslat lat i := by
  obtain ⟨i0, hi0⟩ := hint
  apply Finset.sum_pos'
  · intro i _
    exact cos_deg2rad_nonneg (hrange i).1 (hrange i).2
  · exact ⟨i0, Finset.mem_univ i0, cos_deg2rad_pos hi0.1 hi0.2⟩

lemma fmean_coslat_pos {n : ℕ} (lat : Fin n → ℝ)
    (hrange : ∀ i, -90 ≤ lat i ∧ lat i ≤ 90)
    (hint : ∃ i, -90 < lat i ∧ lat i < 90) :
    0 < fmean (coslat lat) := by
  have hnpos : 0 < n := by
    obtain ⟨i0, _⟩ := hint
    exact i0.pos
  have hn : 0 < (n : ℝ) := by exact_mod_cast hnpos
  exact div_pos (sum_coslat_pos lat hrange hint) hn

/-! ### Concrete grids used as witnesses and counterexamples -/

/-- The spec's example grid `[-90, -45, 0, 45, 90]`. -/
def lat5 : Fin 5 → ℝ := ![-90, -45, 0, 45, 90]

lemma lat5_range : ∀ i, -90 ≤ lat5 i ∧ lat5 i ≤ 90 := by
  intro i
  fin_cases i <;> constructor <;> norm_num [lat5]

lemma lat5_interior : ∃ i, -90 < lat5 i ∧ lat5 i < 90 := by
  refine ⟨2, ?_, ?_⟩ <;> norm_num [lat5]

/-- A one-row grid at the equator. -/
def lat1zero : Fin 1 → ℝ := ![0]

/-- A one-row grid at the north pole: in exact real arithmetic its cosine
weight is `cos (π/2) = 0`. -/
def lat1pole : Fin 1 → ℝ := ![90]

lemma fmean_coslat_lat5 : fmean (coslat lat5) = (Real.sqrt 2 + 1) / 5 := by
  unfold fmean coslat lat5 deg2rad
  rw [Fin.sum_univ_five]
  simp only [Matrix.cons_val_zero, Matrix.cons_val_one, Matrix.head_cons,
    Matrix.cons_val_two, Matrix.tail_cons, Matrix.cons_val_three,
    Matrix.cons_val_four]
  have e1 : (-90 : ℝ) * (Real.pi / 180) = -(Real.pi / 2) := by ring
  have e2 : (-45 : ℝ) * (Real.pi / 180) = -(Real.pi / 4) := by ring
  have e3 : (0 : ℝ) * (Real.pi / 180) = 0 := by ring
  have e4 : (45 : ℝ) * (Real.pi / 180) = Real.pi / 4 := by ring
  have e5 : (90 : ℝ) * (Real.pi / 180) = Real.pi / 2 := by ring
  rw [e1, e2, e3, e4, e5, Real.cos_neg, Real.cos_neg, Real.cos_pi_div_two,
    Real.cos_pi_div_four, Real.cos_zero]
  norm_num
  ring

lemma fmean_coslat_lat5_ne_zero : fmean (coslat lat5) ≠ 0 := by
  rw [fmean_coslat_lat5]
  have h2 : 0 < Real.sqrt 2 := Real.sqrt_pos.mpr (by norm_num)
  positivity

lemma fmean_coslat_lat1zero : fmean (coslat lat1zero) = 1 := by
  unfold fmean coslat lat1zero deg2rad
  rw [Fin.sum_univ_one]
  simp

lemma coslat_lat1pole : coslat lat1pole 0 = 0 := by
  unfold coslat lat1pole deg2rad
  have e : (90 : ℝ) * (Real.pi / 180) = Real.pi / 2 := by ring
  simp only [Matrix.cons_val_zero]
  rw [e, Real.cos_pi_div_two]

lemma weight_factor_lat1pole : weight_factor lat1pole 0 = 0 := by
  unfold weight_factor normweight
  rw [coslat_lat1pole, zero_div]

/-! ### C1: a spatially uniform field averages to its constant value -/

/-- C1 (amended): for every grid whose mean cosine weight is non-zero
(in particular, every grid of physical latitudes with at least one row
off the poles) and at least one longitude column, the weighted global
average of the spatially uniform field with value `c` is exactly `c`. -/
theorem C1_uniform_field_average {n m : ℕ} (lat : Fin n → ℝ) (c : ℝ)
    (hM : fmean (coslat lat) ≠ 0) (hm : 0 < m) :
    weightedMean lat (fun (_ : Fin n) (_ : Fin m) => c) = c := by
  have hn : (n : ℝ) ≠ 0 := fmean_ne_zero_imp_dim_ne_zero hM
  have hmr : (m : ℝ) ≠ 0 := Nat.cast_ne_zero.mpr hm.ne'
  unfold weightedMean mean2 weight_factor
  simp only [Finset.sum_const, Finset.card_univ, Fintype.card_fin,
    nsmul_eq_mul]
  rw [← Finset.mul_sum, ← Finset.mul_sum, sum_normweight (coslat lat) hM]
  field_simp
  ring

/-- C1 witness: the spec's instance — latitudes `[-90, -45, 0, 45, 90]`
and a field of all ones give weighted mean exactly `1`. -/
theorem C1_witness :
    fmean (coslat lat5) ≠ 0 ∧
      weightedMean lat5 (fun (_ : Fin 5) (_ : Fin 1) => (1 : ℝ)) = 1 :=
  ⟨fmean_coslat_lat5_ne_zero,
    C1_uniform_field_average lat5 1 fmean_coslat_lat5_ne_zero one_pos⟩

/-- C1 counterexample: the claim as stated quantifies over *every*
non-empty latitude grid, but in exact real arithmetic the one-row grid
`[90]` has cosine weight `cos (π/2) = 0`, the normalising divisor is
zero, and the weighted average of the all-ones field is `0`, not `1`. -/
theorem C1_counterexample :
    weightedMean lat1pole (fun (_ : Fin 1) (_ : Fin 1) => (1 : ℝ)) = 0 ∧
      (0 : ℝ) ≠ 1 := by
  constructor
  · unfold weightedMean mean2
    simp [Fin.sum_univ_one, weight_factor_lat1pole]
  · norm_num

/-! ### C3: when can the normalising divisor vanish? -/

/-- C3 counterexample: the claim says the divisor (the mean cosine
weight) vanishes only for an empty latitude axis; but the non-empty
grid `[90]` has `∑ cos = cos (π/2) = 0` in exact real arithmetic. -/
theorem C3_counterexample :
    (0 < 1) ∧ (∑ i, coslat lat1pole i) = 0 := by
  refine ⟨one_pos, ?_⟩
  rw [Fin.sum_univ_one, coslat_lat1pole]

/-- C3 (amended): for every non-empty grid whose latitudes lie in
`[-90, 90]` with at least one latitude strictly between the poles, the
sum (and hence the mean) of the cosine weights is non-zero, so the
normalising division is well defined. -/
theorem C3_divisor_nonzero {n : ℕ} (lat : Fin n → ℝ)
    (hrange : ∀ i, -90 ≤ lat i ∧ lat i ≤ 90)
    (hint : ∃ i, -90 < lat i ∧ lat i < 90) :
    (∑ i, coslat lat i) ≠ 0 ∧ fmean (coslat lat) ≠ 0 :=
  ⟨(sum_coslat_pos lat hrange hint).ne',
    (fmean_coslat_pos lat hrange hint).ne'⟩

/-- C3 witness: the grid `[-90, -45, 0, 45, 90]` satisfies the range
hypotheses and indeed has non-zero weight sum. -/
theorem C3_witness :
    (∀ i, -90 ≤ lat5 i ∧ lat5 i ≤ 90) ∧
      (∑ i, coslat lat5 i) ≠ 0 ∧ fmean (coslat lat5) ≠ 0 :=
  ⟨lat5_range, C3_divisor_nonzero lat5 lat5_range lat5_interior⟩

/-! ### C8: the normalised weights average to 1 -/

/-- C8: for every non-empty grid whose cosine weights have non-zero
mean, the normalised weight vector averages to exactly `1`. -/
theorem C8_weights_average_to_one {n : ℕ} (lat : Fin n → ℝ)
    (h : fmean (coslat lat) ≠ 0) :
    fmean (weight_factor lat) = 1 :=
  fmean_normweight (coslat lat) h

/-- C8 witness at the one-row equator grid. -/
theorem C8_witness :
    fmean (coslat lat1zero) ≠ 0 ∧ fmean (weight_factor lat1zero) = 1 := by
  have hne : fmean (coslat lat1zero) ≠ 0 := by
    rw [fmean_coslat_lat1zero]
    norm_num
  exact ⟨hne, C8_weights_average_to_one lat1zero hne⟩

/-! ### C2: the averager equals the spec's reference formula -/

/-- Modelled from the spec: the reference value
`(1/(n*m)) * ∑ i, ∑ j, F i j * w i` with
`w i = cos (radians (lat i)) / mean_k cos (radians (lat k))`,
written out directly from the spec's words for comparison with the
implementation-derived `weightedMean`. -/
def specReferenceAverage {n m : ℕ} (lat : Fin n → ℝ)
    (F : Fin n → Fin m → ℝ) : ℝ :=
  (1 / (n * m : ℝ)) *
    ∑ i, ∑ j,
      F i j *
        (Real.cos (deg2rad (lat i)) /
          ((∑ k, Real.cos (deg2rad (lat k))) / n))

/-- C2: the averager's output equals the reference value, and the
non-spatial (time) axis is reduced exactly when the caller requests it:
reducing time together with the spatial axes agrees with first reducing
space per time step and then averaging over time. -/
theorem C2_matches_reference {n m : ℕ} (lat : Fin n → ℝ)
    (F : Fin n → Fin m → ℝ) (_hn : 0 < n) (_hm : 0 < m) :
    weightedMean lat F = specReferenceAverage lat F ∧
      ∀ (t : ℕ) (G : Fin t → Fin n → Fin m → ℝ),
        weightedMeanTime lat G = fmean fun τ => weightedMean lat (G τ) := by
  constructor
  · unfold weightedMean mean2 weight_factor normweight coslat fmean
      specReferenceAverage
    rw [one_div, inv_mul_eq_div]
  · intro t G
    unfold weightedMeanTime mean3 weightedMean mean2 fmean
    rw [← Finset.sum_div, div_div]
    ring

/-- C2 witness at a concrete one-point grid and field. -/
theorem C2_witness :
    (0 < 1) ∧
      weightedMean lat1zero (fun (_ : Fin 1) (_ : Fin 1) => (2 : ℝ)) =
        specReferenceAverage lat1zero (fun (_ : Fin 1) (_ : Fin 1) => (2 : ℝ)) :=
  ⟨one_pos, (C2_matches_reference lat1zero _ one_pos one_pos).1⟩

/-! ### C5: a single latitude row degenerates to the unweighted mean -/

/-- C5 (amended): on a one-row grid whose cosine weight is non-zero (in
particular any single latitude strictly between the poles), the weight
normalises to `1` and the weighted average equals the unweighted
longitude mean. -/
theorem C5_single_row_no_op {m : ℕ} (l : ℝ) (F : Fin 1 → Fin m → ℝ)
    (hc : Real.cos (deg2rad l) ≠ 0) :
    (∀ i, weight_factor ![l] i = 1) ∧
      weightedMean ![l] F = fmean (F 0) := by
  have hw : ∀ i : Fin 1, weight_factor ![l] i = 1 := by
    intro i
    fin_cases i
    unfold weight_factor normweight fmean coslat
    rw [Fin.sum_univ_one]
    simp only [Matrix.cons_val_zero, Nat.cast_one, div_one]
    exact div_self hc
  refine ⟨hw, ?_⟩
  unfold weightedMean mean2 fmean
  simp only [Fin.sum_univ_one]
  simp only [hw, mul_one, Nat.cast_one, one_mul]

/-- C5 witness: equator row, one longitude column, constant field. -/
theorem C5_witness :
    Real.cos (deg2rad 0) ≠ 0 ∧
      weightedMean ![(0 : ℝ)] (fun (_ : Fin 1) (_ : Fin 1) => (3 : ℝ)) =
        fmean (fun (_ : Fin 1) => (3 : ℝ)) := by
  have hc : Real.cos (deg2rad 0) ≠ 0 := by
    rw [show deg2rad 0 = 0 by unfold deg2rad; ring, Real.cos_zero]
    norm_num
  exact ⟨hc, (C5_single_row_no_op 0 (fun _ _ => 3) hc).2⟩

/-- C5 counterexample: for the one-row grid at the pole the claim as
stated fails in exact arithmetic — the weight is `0/0 = 0`, not `1`,
and the weighted average of the all-ones field is `0` while its
unweighted longitude mean is `1`. -/
theorem C5_counterexample :
    weight_factor lat1pole 0 = 0 ∧
      weightedMean lat1pole (fun (_ : Fin 1) (_ : Fin 1) => (1 : ℝ)) = 0 ∧
      fmean (fun (_ : Fin 1) => (1 : ℝ)) = 1 := by
  refine ⟨weight_factor_lat1pole, ?_, ?_⟩
  · unfold weightedMean mean2
    simp [Fin.sum_univ_one, weight_factor_lat1pole]
  · unfold fmean
    simp

/-! ### C7: re-averaging an already reduced scalar -/

/-- C7 (amended): whenever the mean cosine weight is non-zero,
re-applying the averaging operation to an already spatially reduced
scalar (broadcasting it against the weights and taking the mean again)
returns the same scalar. -/
theorem C7_scalar_idempotent {n : ℕ} (lat : Fin n → ℝ) (c : ℝ)
    (hM : fmean (coslat lat) ≠ 0) :
    averageScalar lat c = c := by
  have hn : (n : ℝ) ≠ 0 := fmean_ne_zero_imp_dim_ne_zero hM
  simp only [averageScalar, weight_factor, fmean]
  rw [← Finset.mul_sum]
  have hs := sum_normweight (coslat lat) hM
  rw [hs, mul_div_assoc, div_self hn, mul_one]

/-- C7 witness at the one-row equator grid. -/
theorem C7_witness :
    fmean (coslat lat1zero) ≠ 0 ∧ averageScalar lat1zero 5 = 5 := by
  have hne : fmean (coslat lat1zero) ≠ 0 := by
    rw [fmean_coslat_lat1zero]
    norm_num
  exact ⟨hne, C7_scalar_idempotent lat1zero 5 hne⟩

/-- C7 counterexample: on the pole-only grid the re-applied average of
the scalar `1` is `0`, not `1`, so the claim does not hold
unconditionally. -/
theorem C7_counterexample :
    averageScalar lat1pole 1 = 0 ∧ (0 : ℝ) ≠ 1 := by
  constructor
  · unfold averageScalar fmean
    simp [Fin.sum_univ_one, weight_factor_lat1pole]
  · norm_num

/-! ### C9: the computation is read-only on the grid and field -/

/-- The dataset variables read by the averaging cells. -/
structure Dataset (n m : ℕ) where
  lat : Fin n → ℝ
  lon : Fin m → ℝ
  FLNT : Fin n → Fin m → ℝ

/-- Interpreter state of the notebook session around the averaging
cells: the opened dataset plus the variables those cells assign. -/
structure SessionState (n m : ℕ) where
  atm_control : Dataset n m
  coslat_var : Option (Fin n → ℝ)
  weight_var : Option (Fin n → ℝ)
  result_var : Option ℝ

/-- Cell `coslat = cos(deg2rad(atm_control.lat))` as a state update. -/
def stepCoslat {n m : ℕ} (s : SessionState n m) : SessionState n m :=
  { s with coslat_var := some (coslat s.atm_control.lat) }

/-- Cell `weight_factor = coslat / coslat.mean(dim='lat')` as a state
update. -/
def stepWeight {n m : ℕ} (s : SessionState n m) : SessionState n m :=
  { s with weight_var := s.coslat_var.map normweight }

/-- Cell `(atm_control.FLNT * weight_factor).mean(...)` as a state
update. -/
def stepAverage {n m : ℕ} (s : SessionState n m) : SessionState n m :=
  { s with
    result_var := s.weight_var.map fun w =>
      mean2 fun i j => s.atm_control.FLNT i j * w i }

/-- The three averaging cells run in notebook order. -/
def runCells {n m : ℕ} (s : SessionState n m) : SessionState n m :=
  stepAverage (stepWeight (stepCoslat s))

/-- C9: running the averaging cells leaves the dataset (grid and field)
untouched, the computed weight vector is exactly the pure function
`weight_factor` of the grid alone, and the result is the pure function
`weightedMean` of grid and field — in particular two sessions over
datasets agreeing on the grid compute the same weight vector. -/
theorem C9_read_only_inputs {n m : ℕ} (s s' : SessionState n m) :
    (runCells s).atm_control = s.atm_control ∧
      (runCells s).weight_var = some (weight_factor s.atm_control.lat) ∧
      (runCells s).result_var =
        some (weightedMean s.atm_control.lat s.atm_control.FLNT) ∧
      (s.atm_control.lat = s'.atm_control.lat →
        (runCells s).weight_var = (runCells s').weight_var) := by
  refine ⟨rfl, rfl, rfl, fun h => ?_⟩
  show some (weight_factor s.atm_control.lat) =
    some (weight_factor s'.atm_control.lat)
  rw [h]

/-- A tiny concrete session state over a one-point grid. -/
def state0 : SessionState 1 1 :=
  ⟨⟨![0], ![0], fun _ _ => 1⟩, none, none, none⟩

/-- C9 witness: the frame property instantiated at a concrete state. -/
theorem C9_witness :
    (runCells state0).atm_control = state0.atm_control ∧
      (runCells state0).weight_var =
        some (weight_factor state0.atm_control.lat) ∧
      (runCells state0).result_var =
        some (weightedMean state0.atm_control.lat state0.atm_control.FLNT) ∧
      (state0.atm_control.lat = state0.atm_control.lat →
        (runCells state0).weight_var = (runCells state0).weight_var) :=
  C9_read_only_inputs state0 state0

/-! ### C10: non-negative weights and min/max bounds on the average -/

/-- C10: on a grid of physical latitudes with at least one row off the
poles, every normalised weight is non-negative and the weighted global
average lies between any lower and upper bound of the field — in
particular between the field's minimum and maximum. -/
theorem C10_average_between_bounds {n m : ℕ} (lat : Fin n → ℝ)
    (F : Fin n → Fin m → ℝ) (lo hi : ℝ) (hm : 0 < m)
    (hrange : ∀ i, -90 ≤ lat i ∧ lat i ≤ 90)
    (hint : ∃ i, -90 < lat i ∧ lat i < 90)
    (hlo : ∀ i j, lo ≤ F i j) (hhi : ∀ i j, F i j ≤ hi) :
    (∀ i, 0 ≤ weight_factor lat i) ∧
      lo ≤ weightedMean lat F ∧ weightedMean lat F ≤ hi := by
  have hMpos : 0 < fmean (coslat lat) := fmean_coslat_pos lat hrange hint
  have hw : ∀ i, 0 ≤ weight_factor lat i := by
    intro i
    exact div_nonneg (cos_deg2rad_nonneg (hrange i).1 (hrange i).2) hMpos.le
  have hnpos : 0 < n := by
    obtain ⟨i0, _⟩ := hint
    exact i0.pos
  have hsum : ∑ i, weight_factor lat i = n := sum_normweight _ hMpos.ne'
  have hnm : (0 : ℝ) < (n : ℝ) * (m : ℝ) := by
    have h1 : (0 : ℝ) < (n : ℝ) := by exact_mod_cast hnpos
    have h2 : (0 : ℝ) < (m : ℝ) := by exact_mod_cast hm
    exact mul_pos h1 h2
  refine ⟨hw, ?_, ?_⟩
  · unfold weightedMean mean2
    rw [le_div_iff₀ hnm]
    calc lo * ((n : ℝ) * m)
        = ∑ i, ∑ _j : Fin m, lo * weight_factor lat i := by
          simp only [Finset.sum_const, Finset.card_univ, Fintype.card_fin,
            nsmul_eq_mul]
          rw [← Finset.mul_sum, ← Finset.mul_sum, hsum]
          ring
      _ ≤ ∑ i, ∑ j, F i j * weight_factor lat i := by
          apply Finset.sum_le_sum
          intro i _
          apply Finset.sum_le_sum
          intro j _
          exact mul_le_mul_of_nonneg_right (hlo i j) (hw i)
  · unfold weightedMean mean2
    rw [div_le_iff₀ hnm]
    calc ∑ i, ∑ j, F i j * weight_factor lat i
        ≤ ∑ i, ∑ _j : Fin m, hi * weight_factor lat i := by
          apply Finset.sum_le_sum
          intro i _
          apply Finset.sum_le_sum
          intro j _
          exact mul_le_mul_of_nonneg_right (hhi i j) (hw i)
      _ = hi * ((n : ℝ) * m) := by
          simp only [Finset.sum_const, Finset.card_univ, Fintype.card_fin,
            nsmul_eq_mul]
          rw [← Finset.mul_sum, ← Finset.mul_sum, hsum]
          ring

/-- C10 witness: the spec's five-row grid, one longitude column, the
constant field `5` with bounds `4` and `6`. -/
theorem C10_witness :
    (∀ i, 0 ≤ weight_factor lat5 i) ∧
      (4 : ℝ) ≤ weightedMean lat5 (fun (_ : Fin 5) (_ : Fin 1) => (5 : ℝ)) ∧
      weightedMean lat5 (fun (_ : Fin 5) (_ : Fin 1) => (5 : ℝ)) ≤ 6 :=
  C10_average_between_bounds lat5 _ 4 6 one_pos lat5_range lat5_interior
    (fun _ _ => by norm_num) (fun _ _ => by norm_num)

/-! ### C4: the cos(latitude) test field on the 2° grid

Telescoping closed forms for sums of sines and cosines in arithmetic
progression, used to evaluate the spec's `-90°..90°` in `2°` steps
example exactly. -/

lemma telescope_sin (θ : ℝ) (n : ℕ) :
    2 * Real.sin (θ / 2) * ∑ k ∈ Finset.range n, Real.sin ((k : ℝ) * θ) =
      Real.cos (θ / 2) - Real.cos (((n : ℝ) - 1 / 2) * θ) := by
  have hstep : ∀ k : ℕ,
      (fun j : ℕ => -Real.cos (((j : ℝ) - 1 / 2) * θ)) (k + 1) -
          (fun j : ℕ => -Real.cos (((j : ℝ) - 1 / 2) * θ)) k =
        2 * Real.sin (θ / 2) * Real.sin ((k : ℝ) * θ) := by
    intro k
    have hc := Real.cos_sub_cos (((k : ℝ) - 1 / 2) * θ)
      (((k : ℝ) + 1 - 1 / 2) * θ)
    have e1 : (((k : ℝ) - 1 / 2) * θ + ((k : ℝ) + 1 - 1 / 2) * θ) / 2 =
        (k : ℝ) * θ := by ring
    have e2 : (((k : ℝ) - 1 / 2) * θ - ((k : ℝ) + 1 - 1 / 2) * θ) / 2 =
        -(θ / 2) := by ring
    rw [e1, e2, Real.sin_neg] at hc
    push_cast
    linarith [hc]
  calc 2 * Real.sin (θ / 2) * ∑ k ∈ Finset.range n, Real.sin ((k : ℝ) * θ)
      = ∑ k ∈ Finset.range n,
          ((fun j : ℕ => -Real.cos (((j : ℝ) - 1 / 2) * θ)) (k + 1) -
            (fun j : ℕ => -Real.cos (((j : ℝ) - 1 / 2) * θ)) k) := by
        rw [Finset.mul_sum]
        exact Finset.sum_congr rfl fun k _ => (hstep k).symm
    _ = (fun j : ℕ => -Real.cos (((j : ℝ) - 1 / 2) * θ)) n -
          (fun j : ℕ => -Real.cos (((j : ℝ) - 1 / 2) * θ)) 0 :=
        Finset.sum_range_sub (fun j : ℕ => -Real.cos (((j : ℝ) - 1 / 2) * θ)) n
    _ = Real.cos (θ / 2) - Real.cos (((n : ℝ) - 1 / 2) * θ) := by
        show -Real.cos (((n : ℝ) - 1 / 2) * θ) -
            -Real.cos ((((0 : ℕ) : ℝ) - 1 / 2) * θ) = _
        rw [show (((0 : ℕ) : ℝ) - 1 / 2) * θ = -(θ / 2) by push_cast; ring,
          Real.cos_neg]
        ring

lemma telescope_cos (θ : ℝ) (n : ℕ) :
    2 * Real.sin (θ / 2) * ∑ k ∈ Finset.range n, Real.cos ((k : ℝ) * θ) =
      Real.sin (((n : ℝ) - 1 / 2) * θ) + Real.sin (θ / 2) := by
  have hstep : ∀ k : ℕ,
      (fun j : ℕ => Real.sin (((j : ℝ) - 1 / 2) * θ)) (k + 1) -
          (fun j : ℕ => Real.sin (((j : ℝ) - 1 / 2) * θ)) k =
        2 * Real.sin (θ / 2) * Real.cos ((k : ℝ) * θ) := by
    intro k
    have hs := Real.sin_sub_sin (((k : ℝ) + 1 - 1 / 2) * θ)
      (((k : ℝ) - 1 / 2) * θ)
    have e1 : ((((k : ℝ) + 1 - 1 / 2) * θ - ((k : ℝ) - 1 / 2) * θ) / 2) =
        θ / 2 := by ring
    have e2 : ((((k : ℝ) + 1 - 1 / 2) * θ + ((k : ℝ) - 1 / 2) * θ) / 2) =
        (k : ℝ) * θ := by ring
    rw [e1, e2] at hs
    push_cast
    linarith [hs]
  calc 2 * Real.sin (θ / 2) * ∑ k ∈ Finset.range n, Real.cos ((k : ℝ) * θ)
      = ∑ k ∈ Finset.range n,
          ((fun j : ℕ => Real.sin (((j : ℝ) - 1 / 2) * θ)) (k + 1) -
            (fun j : ℕ => Real.sin (((j : ℝ) - 1 / 2) * θ)) k) := by
        rw [Finset.mul_sum]
        exact Finset.sum_congr rfl fun k _ => (hstep k).symm
    _ = (fun j : ℕ => Real.sin (((j : ℝ) - 1 / 2) * θ)) n -
          (fun j : ℕ => Real.sin (((j : ℝ) - 1 / 2) * θ)) 0 :=
        Finset.sum_range_sub (fun j : ℕ => Real.sin (((j : ℝ) - 1 / 2) * θ)) n
    _ = Real.sin (((n : ℝ) - 1 / 2) * θ) + Real.sin (θ / 2) := by
        show Real.sin (((n : ℝ) - 1 / 2) * θ) -
            Real.sin ((((0 : ℕ) : ℝ) - 1 / 2) * θ) = _
        rw [show (((0 : ℕ) : ℝ) - 1 / 2) * θ = -(θ / 2) by push_cast; ring,
          Real.sin_neg]
        ring

/-- The latitude grid from `-90°` to `90°` in `2°` steps (91 rows). -/
def lat91 : Fin 91 → ℝ := fun k => -90 + 2 * ((k : ℕ) : ℝ)

/-- The spec's test field `F i = cos (radians (lat i))` on that grid. -/
def field91 : Fin 91 → ℝ := fun k => Real.cos (deg2rad (lat91 k))

/-- Its unweighted mean. -/
def unweightedMean91 : ℝ := fmean field91

/-- Its cosine-weighted global mean (one longitude column). -/
def weightedMean91 : ℝ :=
  weightedMean lat91 fun i (_ : Fin 1) => field91 i

lemma sin_pi_div_180_pos : 0 < Real.sin (Real.pi / 180) := by
  apply Real.sin_pos_of_pos_of_lt_pi
  · positivity
  · linarith [Real.pi_pos]

lemma sin_pi_div_90_pos : 0 < Real.sin (Real.pi / 90) := by
  apply Real.sin_pos_of_pos_of_lt_pi
  · positivity
  · linarith [Real.pi_pos]

lemma cos_pi_div_180_pos : 0 < Real.cos (Real.pi / 180) := by
  apply Real.cos_pos_of_mem_Ioo
  constructor
  · linarith [Real.pi_pos]
  · linarith [Real.pi_pos]

lemma coslat_lat91 (k : Fin 91) :
    coslat lat91 k = Real.sin (((k : ℕ) : ℝ) * (Real.pi / 90)) := by
  unfold coslat lat91 deg2rad
  rw [show (-90 + 2 * ((k : ℕ) : ℝ)) * (Real.pi / 180) =
    ((k : ℕ) : ℝ) * (Real.pi / 90) - Real.pi / 2 by ring]
  exact Real.cos_sub_pi_div_two _

lemma field91_eq_coslat : field91 = coslat lat91 := rfl

/-- Closed form for the sum of the 91 sampled cosines:
`∑ cos (lat k) = cot (π/180)`. -/
lemma sum_field91 :
    (∑ i, field91 i) = Real.cos (Real.pi / 180) / Real.sin (Real.pi / 180) := by
  have h1 : (∑ i, field91 i) =
      ∑ i : Fin 91, Real.sin (((i : ℕ) : ℝ) * (Real.pi / 90)) :=
    Finset.sum_congr rfl fun i _ => coslat_lat91 i
  rw [h1,
    Fin.sum_univ_eq_sum_range (fun k : ℕ => Real.sin ((k : ℝ) * (Real.pi / 90))) 91]
  have ht1 := telescope_sin (Real.pi / 90) 91
  rw [show (Real.pi / 90) / 2 = Real.pi / 180 by ring,
    show ((91 : ℕ) : ℝ) - 1 / 2 = 181 / 2 by norm_num] at ht1
  rw [show (181 / 2 : ℝ) * (Real.pi / 90) = Real.pi / 180 + Real.pi by ring,
    Real.cos_add_pi] at ht1
  have h2 : (2 : ℝ) * Real.sin (Real.pi / 180) ≠ 0 :=
    (mul_pos two_pos sin_pi_div_180_pos).ne'
  apply mul_left_cancel₀ h2
  have h3 : 2 * Real.sin (Real.pi / 180) *
      (Real.cos (Real.pi / 180) / Real.sin (Real.pi / 180)) =
      2 * Real.cos (Real.pi / 180) := by
    field_simp [sin_pi_div_180_pos.ne']
    ring
  rw [h3]
  have h4 := ht1
  push_cast at h4
  linarith [h4]

/-- Closed form for the auxiliary cosine sum `∑ cos (k·π/45) = 1`. -/
lemma sum_cos_aux :
    (∑ k ∈ Finset.range 91, Real.cos ((k : ℝ) * (Real.pi / 45))) = 1 := by
  have ht := telescope_cos (Real.pi / 45) 91
  rw [show (Real.pi / 45) / 2 = Real.pi / 90 by ring,
    show ((91 : ℕ) : ℝ) - 1 / 2 = 181 / 2 by norm_num] at ht
  rw [show (181 / 2 : ℝ) * (Real.pi / 45) = Real.pi / 90 + 2 * Real.pi by ring,
    Real.sin_add_two_pi] at ht
  have h2 : (2 : ℝ) * Real.sin (Real.pi / 90) ≠ 0 :=
    (mul_pos two_pos sin_pi_div_90_pos).ne'
  apply mul_left_cancel₀ h2
  rw [mul_one]
  linarith [ht]

/-- The sum of the squared sampled cosines is exactly `45`. -/
lemma sum_field91_sq : (∑ i, field91 i ^ 2) = 45 := by
  have h1 : ∀ i : Fin 91, field91 i ^ 2 =
      1 / 2 - Real.cos (((i : ℕ) : ℝ) * (Real.pi / 45)) / 2 := by
    intro i
    rw [field91_eq_coslat, coslat_lat91 i, Real.sin_sq_eq_half_sub,
      show 2 * (((i : ℕ) : ℝ) * (Real.pi / 90)) =
        ((i : ℕ) : ℝ) * (Real.pi / 45) by ring]
  rw [Finset.sum_congr rfl fun i _ => h1 i, Finset.sum_sub_distrib]
  have h2 : (∑ _i : Fin 91, (1 / 2 : ℝ)) = 91 / 2 := by
    rw [Finset.sum_const, Finset.card_univ, Fintype.card_fin, nsmul_eq_mul]
    norm_num
  have h3 : (∑ i : Fin 91, Real.cos (((i : ℕ) : ℝ) * (Real.pi / 45)) / 2) =
      1 / 2 := by
    rw [← Finset.sum_div,
      Fin.sum_univ_eq_sum_range (fun k : ℕ => Real.cos ((k : ℝ) * (Real.pi / 45))) 91,
      sum_cos_aux]
  rw [h2, h3]
  norm_num

/-- The mean cosine weight of the 2° grid, in closed form. -/
lemma fmean_coslat_lat91 :
    fmean (coslat lat91) =
      Real.cos (Real.pi / 180) / Real.sin (Real.pi / 180) / 91 := by
  unfold fmean
  rw [show (∑ i, coslat lat91 i) = ∑ i, field91 i by rw [field91_eq_coslat],
    sum_field91]
  norm_num

/-- The unweighted mean of the test field, in closed form:
`cot (π/180) / 91 ≈ 0.6296`. -/
lemma unweightedMean91_eq :
    unweightedMean91 =
      Real.cos (Real.pi / 180) / Real.sin (Real.pi / 180) / 91 := by
  unfold unweightedMean91 fmean
  rw [sum_field91]
  norm_num

/-- The weighted mean of the test field, in closed form:
`45 · tan (π/180) ≈ 0.7855` (approximately `π/4`). -/
lemma weightedMean91_eq :
    weightedMean91 =
      45 * (Real.sin (Real.pi / 180) / Real.cos (Real.pi / 180)) := by
  have hM : fmean (coslat lat91) =
      Real.cos (Real.pi / 180) / Real.sin (Real.pi / 180) / 91 :=
    fmean_coslat_lat91
  have hcos := cos_pi_div_180_pos
  have hsin := sin_pi_div_180_pos
  unfold weightedMean91 weightedMean mean2 weight_factor normweight
  simp only [Fin.sum_univ_one]
  have h1 : ∀ i : Fin 91, field91 i * (coslat lat91 i / fmean (coslat lat91)) =
      field91 i ^ 2 / fmean (coslat lat91) := by
    intro i
    rw [← field91_eq_coslat]
    ring
  rw [Finset.sum_congr rfl fun i _ => h1 i, ← Finset.sum_div, sum_field91_sq, hM]
  field_simp
  ring

/-! Numeric bounds for the closed forms. -/

lemma pi_div_180_bounds :
    0.0174527 < Real.pi / 180 ∧ Real.pi / 180 < 0.0174534 := by
  constructor
  · linarith [Real.pi_gt_d4]
  · linarith [Real.pi_lt_d4]

lemma sin_pi_div_180_bounds :
    0.0174513 < Real.sin (Real.pi / 180) ∧
      Real.sin (Real.pi / 180) < 0.0174534 := by
  have hx := pi_div_180_bounds
  have hx0 : (0 : ℝ) < Real.pi / 180 := by positivity
  constructor
  · have h := Real.sin_gt_sub_cube hx0 (by linarith [hx.2])
    have hcube : (Real.pi / 180) ^ 3 < 0.0000054 := by
      have h1 : (Real.pi / 180) ^ 3 < (0.0174534 : ℝ) ^ 3 :=
        pow_lt_pow_left₀ hx.2 hx0.le (by norm_num)
      nlinarith [h1]
    linarith [h, hx.1, hcube]
  · have h := Real.sin_lt hx0
    linarith [hx.2]

lemma cos_pi_div_180_bounds :
    0.999847 < Real.cos (Real.pi / 180) ∧ Real.cos (Real.pi / 180) ≤ 1 := by
  have hx := pi_div_180_bounds
  have hx0 : (0 : ℝ) < Real.pi / 180 := by positivity
  constructor
  · have h := Real.one_sub_sq_div_two_lt_cos (x := Real.pi / 180) hx0.ne'
    have hsq : (Real.pi / 180) ^ 2 < 0.000305 := by
      nlinarith [hx.1, hx.2]
    linarith [h, hsq]
  · exact Real.cos_le_one _

/-- `0.629 < cot (π/180) / 91 < 0.630`: the unweighted mean is about
`0.6296`. -/
lemma unweightedMean91_bounds :
    0.629 < unweightedMean91 ∧ unweightedMean91 < 0.630 := by
  have hs := sin_pi_div_180_bounds
  have hc := cos_pi_div_180_bounds
  have hspos := sin_pi_div_180_pos
  rw [unweightedMean91_eq, div_div]
  have hden : (0 : ℝ) < Real.sin (Real.pi / 180) * 91 :=
    mul_pos hspos (by norm_num)
  constructor
  · rw [lt_div_iff₀ hden]
    nlinarith [hs.2, hc.1]
  · rw [div_lt_iff₀ hden]
    nlinarith [hs.1, hc.2]

/-- `0.785 < 45 · tan (π/180) < 0.786`: the weighted mean is about
`0.7855 ≈ π/4`, far from `0`. -/
lemma weightedMean91_bounds :
    0.785 < weightedMean91 ∧ weightedMean91 < 0.786 := by
  have hs := sin_pi_div_180_bounds
  have hc := cos_pi_div_180_bounds
  have hcpos := cos_pi_div_180_pos
  rw [weightedMean91_eq, mul_div_assoc']
  constructor
  · rw [lt_div_iff₀ hcpos]
    nlinarith [hs.1, hc.2]
  · rw [div_lt_iff₀ hcpos]
    nlinarith [hs.2, hc.1]

/-- C4 counterexample: the claim asserts the weighted mean of the
`cos (latitude)` field on the 2° grid is approximately `0` within
tolerance `1e-6`; in fact it exceeds `0.785` (it equals
`45 · tan (π/180) ≈ π/4`, because `cos (latitude)` is even about the
equator, not odd). -/
theorem C4_counterexample :
    ¬ |weightedMean91 - 0| ≤ 1 / 1000000 := by
  have h := weightedMean91_bounds.1
  rw [sub_zero, abs_of_pos (by linarith : (0 : ℝ) < weightedMean91)]
  intro hcontra
  linarith

/-- C4 (amended): on the `-90°..90°` in `2°` steps grid with field
`cos (latitude)`, the unweighted mean is `cot (π/180)/91 ≈ 0.63` and the
weighted mean is `45 · tan (π/180) ≈ 0.785` (not `≈ 0` as claimed: the
field is even about the equator); in particular the two means differ,
demonstrating that the weighting matters. -/
theorem C4_weighting_matters :
    (0.629 < unweightedMean91 ∧ unweightedMean91 < 0.630) ∧
      (0.785 < weightedMean91 ∧ weightedMean91 < 0.786) ∧
      unweightedMean91 ≠ weightedMean91 := by
  refine ⟨unweightedMean91_bounds, weightedMean91_bounds, ?_⟩
  have h1 := unweightedMean91_bounds.2
  have h2 := weightedMean91_bounds.1
  intro he
  rw [he] at h1
  linarith

end CESM
